import Mathlib

/-!
Shallow embedding of the docman document model and health-check engine
(crates dm-meta, dm-scan, dm-checks) in Lean 4, together with theorems
settling the specification claims about it.

Conventions of the embedding:
* Rust `&str`/`String`/`PathBuf` are Lean `String` (a wrapper around
  `List Char`); the byte-level UTF-8 representation is not modelled, the
  checks only use character-level operations.
* `chrono::NaiveDate` is a year/month/day record; its ordering and
  day-difference arithmetic are modelled through the standard
  days-from-civil calendar function, which agrees with chrono on all
  valid dates (chrono constructs only valid dates).
* Filesystem access (`Path::exists`) is modelled by an explicit oracle
  `fs : String → Bool` passed to the functions that perform it.
* YAML (de)serialization lives in the external serde_yaml crate and is
  passed in as an oracle where the control flow needs it.
-/

/-! ## String helpers -/

/-- Rust `str::starts_with`: `p` is a prefix of `s`. -/
def strStartsWith (s p : String) : Bool := decide (p.data <+: s.data)

/-- Rust `str::ends_with`: `p` is a suffix of `s`. -/
def strEndsWith (s p : String) : Bool := decide (p.data <:+ s.data)

/-- Rust `str::contains`: `p` occurs as a contiguous substring of `s`. -/
def strContains (s p : String) : Bool := decide (p.data <:+: s.data)

/-- Drop the first `n` characters of a string (model of slicing off a
known-length prefix, as `strip_prefix` does). -/
def strDrop (s : String) (n : Nat) : String := ⟨s.data.drop n⟩

/-- ASCII lowercasing of one character. -/
def charLower (c : Char) : Char :=
  if 65 ≤ c.toNat ∧ c.toNat ≤ 90 then Char.ofNat (c.toNat + 32) else c

/-- Model of Rust `str::to_lowercase` on the ASCII fragment (the statuses
this repository compares are ASCII keywords). -/
def toLowerStr (s : String) : String := ⟨s.data.map charLower⟩

/-- Replace backslashes by forward slashes, as
`s.replace('\x5c', "/")` does in `infer_category` and
`check_broken_links`. -/
def normSlash (s : String) : String :=
  ⟨s.data.map (fun c => if c = '\\' then '/' else c)⟩

/-! ## Dates -/

/-- Model of `chrono::NaiveDate`: a civil calendar date. -/
structure Date where
  year : Nat
  month : Nat
  day : Nat
deriving DecidableEq, Repr

/-- Day number of a civil date (Hinnant's days-from-civil algorithm,
without the epoch shift, which cancels in all comparisons and
differences). Agrees with chrono's internal day counting on every valid
date with year ≥ 1. -/
def Date.toDays (d : Date) : Nat :=
  let y := if d.month ≤ 2 then d.year - 1 else d.year
  let era := y / 400
  let yoe := y % 400
  let mp := if d.month > 2 then d.month - 3 else d.month + 9
  let doy := (153 * mp + 2) / 5 + (d.day - 1)
  let doe := yoe * 365 + yoe / 4 - yoe / 100 + doy
  era * 146097 + doe

/-- Model of chrono's `NaiveDate` ordering (`today > next_review` etc.). -/
def dateLt (a b : Date) : Prop := a.toDays < b.toDays

instance (a b : Date) : Decidable (dateLt a b) := by
  unfold dateLt; infer_instance

/-- Model of `(a - b).num_days()` on `NaiveDate`s. -/
def numDays (a b : Date) : Int := (a.toDays : Int) - (b.toDays : Int)

/-- Decimal digits of a natural number, most significant first. The
`fuel` argument is a structural-recursion bound (any value above the
digit count is enough, and the wrapper supplies one). -/
def natDigitsAux (fuel : Nat) (n : Nat) : List Char :=
  match fuel with
  | 0 => []
  | fuel + 1 =>
    if n < 10 then [Char.ofNat (48 + n)]
    else natDigitsAux fuel (n / 10) ++ [Char.ofNat (48 + n % 10)]

/-- Decimal digits of a natural number, most significant first. -/
def natDigits (n : Nat) : List Char := natDigitsAux (n + 1) n

/-- Zero-padded decimal rendering. -/
def padNum (w n : Nat) : String :=
  let ds := natDigits n
  ⟨List.replicate (w - ds.length) '0' ++ ds⟩

/-- Model of chrono's `Display` for `NaiveDate` (ISO `%Y-%m-%d`). -/
def Date.toStr (d : Date) : String :=
  padNum 4 d.year ++ "-" ++ padNum 2 d.month ++ "-" ++ padNum 2 d.day

/-! ## Data model (crate dm-meta) -/

/-- Document category, inferred from the path. -/
inductive Category where
  | active
  | design
  | research
  | archive
deriving DecidableEq, Repr

/-- The `Display` implementation for `Category`. -/
def Category.toStr : Category → String
  | .active => "active"
  | .design => "design"
  | .research => "research"
  | .archive => "archive"

/-- Issue severity. -/
inductive Severity where
  | error
  | warning
  | info
deriving DecidableEq, Repr

/-- Raw frontmatter deserialized from YAML; every field is optional.
`version` is an `f64` in the source; the checks and the validator never
compute with it, so its carrier is opaque here (Lean `Float`). -/
structure RawFrontmatter where
  title : Option String
  version : Option Float
  status : Option String
  created : Option Date
  last_updated : Option Date
  author : Option String
  owner : Option String
  reviewers : Option (List String)
  next_review : Option Date
  tags : Option (List String)
  related_docs : Option (List String)
  supersedes : Option String
  superseded_by : Option String
  doc_id : Option Nat
  decision_date : Option Date
  implementation_pr : Option Nat
  related_issues : Option (List Nat)
  doc_type : Option String
  may_become_design_doc : Option Bool
  archived_date : Option Date
  archived_reason : Option String
  historical_value : Option String

/-- `RawFrontmatter::default()`: every field absent. -/
def fmDefault : RawFrontmatter :=
  ⟨none, none, none, none, none, none, none, none, none, none, none,
   none, none, none, none, none, none, none, none, none, none, none⟩

/-- A parsed document. -/
structure Document where
  path : String
  frontmatter : RawFrontmatter
  category : Category
  body : String

/-- A single frontmatter validation issue. -/
structure ValidationIssue where
  path : String
  severity : Severity
  message : String
deriving DecidableEq, Repr

/-! ## Category inference (dm-meta `infer_category`) -/

/-- Infer document category from its file path. -/
def infer_category (path : String) : Category :=
  let norm := normSlash path
  if strContains norm "/active/" || strStartsWith norm "active/" then .active
  else if strContains norm "/design/" || strStartsWith norm "design/" then .design
  else if strContains norm "/research/" || strStartsWith norm "research/" then .research
  else if strContains norm "/archive/" || strStartsWith norm "archive/" then .archive
  else .active

/-! ## Frontmatter validation (dm-meta `validate_frontmatter`) -/

def VALID_ACTIVE_STATUSES : List String := ["active", "deprecated", "draft"]
def VALID_DESIGN_STATUSES : List String := ["proposed", "accepted", "implemented", "rejected"]
def VALID_RESEARCH_STATUSES : List String := ["draft", "published", "obsolete"]

/-- Validate one document's frontmatter against the category-conditioned
rules. -/
def validate_frontmatter (doc : Document) : List ValidationIssue :=
  let p := doc.path
  let fm := doc.frontmatter
  let all_none := fm.title = none ∧ fm.author = none ∧ fm.status = none ∧
    fm.created = none ∧ fm.tags = none
  if all_none ∧ doc.body ≠ "" then
    [⟨p, .error, "no frontmatter found"⟩]
  else
    (if fm.title = none then [⟨p, .error, "missing title"⟩] else []) ++
    (if fm.author = none then [⟨p, .warning, "missing author"⟩] else []) ++
    (if fm.created = none then [⟨p, .warning, "missing created date"⟩] else []) ++
    (if doc.category = .design ∧ fm.doc_id = none then
      [⟨p, .error, "design doc missing doc_id"⟩] else []) ++
    (if doc.category = .active ∧ fm.next_review = none then
      [⟨p, .warning, "active doc missing next_review"⟩] else []) ++
    (match fm.status with
     | some status =>
       let s := toLowerStr status
       let valid := match doc.category with
         | .active => VALID_ACTIVE_STATUSES.contains s
         | .design => VALID_DESIGN_STATUSES.contains s
         | .research => VALID_RESEARCH_STATUSES.contains s
         | .archive => true
       if valid then []
       else [⟨p, .error,
         "invalid status '" ++ s ++ "' for " ++ doc.category.toStr ++ " category"⟩]
     | none => [])

/-! ## Frontmatter extraction (dm-meta `extract_frontmatter`) -/

/-- Does `"---"` occur in `s` starting at index `i` (wholly inside `s`)? -/
def tripleAt (s : List Char) (i : Nat) : Bool :=
  (s.drop i).take 3 == ['-', '-', '-']

/-- Position `j` of `s` carries a closing frontmatter delimiter: `"---"`
at the start of a line (index 0 or preceded by a newline) and followed by
a newline, a carriage return, or the end of input. This is the condition
checked inside the source's `find_closing_delimiter` loop. -/
def IsClosingDelim (s : List Char) (j : Nat) : Prop :=
  tripleAt s j = true ∧
  (j = 0 ∨ s.get? (j - 1) = some '\n') ∧
  (s.length ≤ j + 3 ∨ s.get? (j + 3) = some '\n' ∨ s.get? (j + 3) = some '\r')

instance (s : List Char) (j : Nat) : Decidable (IsClosingDelim s j) := by
  unfold IsClosingDelim; infer_instance

/-- First occurrence of `"---"` in `s` at an index `≥ i`
(model of `s[search_from..].find("---")`, reported as an absolute
index). `fuel` is a structural-recursion bound; `s.length + 1` always
suffices since the scan position increases by one per step. -/
def findDashes (s : List Char) (i : Nat) : Nat → Option Nat
  | 0 => none
  | fuel + 1 =>
    if i < s.length then
      if tripleAt s i then some i else findDashes s (i + 1) fuel
    else none

/-- The search loop of `find_closing_delimiter`: find the next `"---"`,
accept it if it sits on its own line, otherwise resume three characters
further on. `fuel` is a Lean-side termination bound; the Rust loop
terminates because the search position strictly increases, and
`s.length` rounds of the loop are always enough to exhaust the input. -/
def findClosingFuel (s : List Char) (sf : Nat) : Nat → Option Nat
  | 0 => none
  | fuel + 1 =>
    if sf < s.length then
      match findDashes s sf (s.length + 1) with
      | none => none
      | some abs =>
        if IsClosingDelim s abs then some abs
        else findClosingFuel s (abs + 3) fuel
    else none

/-- Find the byte offset of a closing `---` that sits on its own line. -/
def find_closing_delimiter (s : List Char) : Option Nat :=
  findClosingFuel s 0 s.length

/-- Extract YAML frontmatter and body from markdown content. Returns
`some (yaml, body)` if frontmatter delimiters are found, `none`
otherwise. -/
def extract_frontmatter (content : String) : Option (String × String) :=
  let rest? :=
    if strStartsWith content "---\n" then some (strDrop content 4)
    else if strStartsWith content "---\r\n" then some (strDrop content 5)
    else none
  match rest? with
  | none => none
  | some rest =>
    match find_closing_delimiter rest.data with
    | none => none
    | some close =>
      let yaml : String := ⟨rest.data.take close⟩
      let after : String := ⟨rest.data.drop (close + 3)⟩
      let body :=
        if strStartsWith after "\n" then strDrop after 1
        else if strStartsWith after "\r\n" then strDrop after 2
        else after
      some (yaml, body)

/-- Parse a file's content into a `Document` (model of `parse_document`;
the file read happens in the caller, so the already-read `content` is a
parameter, and the serde_yaml deserializer is the oracle `yamlParse`). -/
def parse_document (yamlParse : String → Except String RawFrontmatter)
    (path content : String) : Except String Document :=
  let category := infer_category path
  match extract_frontmatter content with
  | some (yaml, body) =>
    match yamlParse yaml with
    | .ok fm => .ok ⟨path, fm, category, body⟩
    | .error e => .error e
  | none => .ok ⟨path, fmDefault, category, content⟩

/-! ## Document collection (crate dm-scan `DocTree`) -/

/-- The scanned document collection: documents in scan order plus the
scan root. (The scanner's error list is irrelevant to the checks and
omitted.) -/
structure DocTree where
  docs : List Document
  root : String

/-- Get all documents. -/
def DocTree.all (tree : DocTree) : List Document := tree.docs

/-- Get documents by category. -/
def DocTree.by_category (tree : DocTree) (category : Category) : List Document :=
  tree.docs.filter (fun d => d.category = category)

/-! ## Check types (crate dm-checks) -/

/-- The type of health check that produced an issue. -/
inductive CheckType where
  | stale
  | orphan
  | brokenLink
  | missingFrontmatter
  | invalidMetadata
deriving DecidableEq, Repr

/-- A single issue found during a health check. -/
structure CheckIssue where
  path : String
  check_type : CheckType
  severity : Severity
  message : String
deriving DecidableEq, Repr

/-- Aggregated results from all health checks. -/
structure CheckReport where
  issues : List CheckIssue
  docs_checked : Nat
  timestamp : Date
deriving DecidableEq, Repr

/-! ## Staleness check (`check_stale`) -/

/-- The body of `check_stale`'s per-document loop. -/
def staleDocIssues (today : Date) (doc : Document) : List CheckIssue :=
  (match doc.frontmatter.next_review with
   | some next_review =>
     if dateLt next_review today then
       [⟨doc.path, .stale, .warning, "Review overdue since " ++ next_review.toStr⟩]
     else []
   | none => []) ++
  (match doc.frontmatter.last_updated with
   | some last_updated =>
     if numDays today last_updated > 180 then
       [⟨doc.path, .stale, .warning,
         "Not updated in over 6 months (last: " ++ last_updated.toStr ++ ")"⟩]
     else []
   | none => []) ++
  (if doc.category = .active ∧ doc.frontmatter.next_review = none then
    [⟨doc.path, .stale, .info, "No review date set"⟩]
   else [])

/-- Detect stale documents: overdue reviews, old last-updated dates,
missing review dates. -/
def check_stale (tree : DocTree) (today : Date) : List CheckIssue :=
  tree.all.flatMap (staleDocIssues today)

/-! ## Orphan check (`check_orphans_with_date`) -/

/-- The body of the orphan check's per-design-document loop. The public
`check_orphans` wrapper merely supplies the current local date to this
function; the system clock read is not part of the check logic. -/
def orphanDocIssues (tree : DocTree) (today : Date) (doc : Document) : List CheckIssue :=
  let status := toLowerStr (doc.frontmatter.status.getD "")
  (if status = "accepted" then
    (if doc.frontmatter.implementation_pr = none then
      [⟨doc.path, .orphan, .warning, "Accepted design doc has no implementation PR"⟩]
     else []) ++
    (match doc.frontmatter.decision_date with
     | some decision_date =>
       if numDays today decision_date > 90 then
         [⟨doc.path, .orphan, .warning, "Accepted >90 days without implementation"⟩]
       else []
     | none => [])
   else []) ++
  (if status = "implemented" then
    let active_docs := tree.by_category .active
    let is_referenced := active_docs.any (fun active =>
      (active.frontmatter.related_docs.getD []).any (fun rd =>
        strContains doc.path rd || strContains rd doc.path))
    if ¬ is_referenced then
      [⟨doc.path, .orphan, .info, "Implemented design doc not referenced by any active doc"⟩]
    else []
   else [])

/-- Detect orphaned design documents: accepted without PRs, stale
acceptances, unreferenced implemented designs. -/
def check_orphans_with_date (tree : DocTree) (today : Date) : List CheckIssue :=
  (tree.by_category .design).flatMap (orphanDocIssues tree today)

/-! ## Broken-link check (`check_broken_links`) -/

/-- Model of `PathBuf::join` on string paths: joining an absolute path
replaces the base. -/
def joinPath (root link : String) : String :=
  if strStartsWith link "/" then link else root ++ "/" ++ link

/-- Model of `Path::strip_prefix(root).unwrap_or(path)` on string paths:
drop a leading `root` component sequence when present, else keep the
path unchanged. -/
def stripRoot (root p : String) : String :=
  if strStartsWith p (root ++ "/") then strDrop p (root.data.length + 1)
  else if p = root then "" else p

/-- The tree's document paths taken relative to the scan root with
separators normalized to `/` (the `known_paths` vector). -/
def known_paths (tree : DocTree) : List String :=
  tree.all.map (fun d => normSlash (stripRoot tree.root d.path))

/-- Model of `str::strip_prefix("docs/")`. -/
def stripDocs? (link : String) : Option String :=
  if strStartsWith link "docs/" then some (strDrop link 5) else none

/-- The `path_exists` closure of `check_broken_links`: resolve a link
string against the known relative paths, then against the filesystem
(oracle `fs`) under the scan root, then retry both with a leading
`docs/` stripped. -/
def path_exists (fs : String → Bool) (root : String) (known : List String)
    (link : String) : Bool :=
  if known.any (fun p => p == link || strEndsWith p link || strEndsWith link p) then
    true
  else if fs (joinPath root link) then
    true
  else
    match stripDocs? link with
    | some stripped =>
      if known.any (fun p => p == stripped || strEndsWith p stripped) then true
      else if fs (joinPath root stripped) then true
      else false
    | none => false

/-- The per-document body of `check_broken_links`' loop. -/
def brokenLinkDocIssues (fs : String → Bool) (root : String)
    (known : List String) (doc : Document) : List CheckIssue :=
  ((doc.frontmatter.related_docs.getD []).flatMap (fun link =>
    if ¬ path_exists fs root known link then
      [⟨doc.path, .brokenLink, .error, "Broken link: " ++ link ++ " does not exist"⟩]
    else [])) ++
  (match doc.frontmatter.supersedes with
   | some target =>
     if ¬ path_exists fs root known target then
       [⟨doc.path, .brokenLink, .error, "Supersedes target not found: " ++ target⟩]
     else []
   | none => []) ++
  (match doc.frontmatter.superseded_by with
   | some target =>
     if ¬ path_exists fs root known target then
       [⟨doc.path, .brokenLink, .error, "Superseded_by target not found: " ++ target⟩]
     else []
   | none => [])

/-- Detect broken cross-references in `related_docs`, `supersedes`, and
`superseded_by` fields. -/
def check_broken_links (fs : String → Bool) (tree : DocTree) : List CheckIssue :=
  tree.all.flatMap (brokenLinkDocIssues fs tree.root (known_paths tree))

/-! ## Frontmatter aggregate check (`check_frontmatter`) -/

/-- Validate frontmatter for all documents and convert issues to
`CheckIssue`s, re-tagging by message content. -/
def check_frontmatter (tree : DocTree) : List CheckIssue :=
  tree.all.flatMap (fun doc =>
    (validate_frontmatter doc).map (fun vi =>
      let check_type :=
        if strContains vi.message "no frontmatter" then CheckType.missingFrontmatter
        else CheckType.invalidMetadata
      ⟨vi.path, check_type, vi.severity, vi.message⟩))

/-! ## Combined check (`run_all_checks_with_date`) -/

/-- Run all health checks and return an aggregated report. The public
`run_all_checks` wrapper supplies the current local date. -/
def run_all_checks_with_date (fs : String → Bool) (tree : DocTree)
    (today : Date) : CheckReport :=
  { issues :=
      check_stale tree today ++
      check_orphans_with_date tree today ++
      check_broken_links fs tree ++
      check_frontmatter tree
    docs_checked := tree.all.length
    timestamp := today }

/-! ## YAML round-trip codec for `RawFrontmatter`

Modelled from the spec: serde_yaml's (de)serialization of
`RawFrontmatter` is external-crate code not present in this repository's
sources; following the spec's round-trip description, it is modelled as
a key/value mapping codec in which every optional field is written under
its YAML key (`doc_type` under `type`), an absent field as YAML `null`,
and read back by key, with `null` mapping to the absent value. -/

/-- Modelled from the spec: a YAML scalar or sequence value as it occurs
in a serialized `RawFrontmatter` mapping. -/
inductive YamlVal where
  | nullV
  | strV (s : String)
  | natV (n : Nat)
  | floatV (x : Float)
  | boolV (b : Bool)
  | dateV (d : Date)
  | listStrV (l : List String)
  | listNatV (l : List Nat)

def encStr : Option String → YamlVal
  | none => .nullV
  | some s => .strV s

def decStr : YamlVal → Option String
  | .strV s => some s
  | _ => none

def encNat : Option Nat → YamlVal
  | none => .nullV
  | some n => .natV n

def decNat : YamlVal → Option Nat
  | .natV n => some n
  | _ => none

def encFloat : Option Float → YamlVal
  | none => .nullV
  | some x => .floatV x

def decFloat : YamlVal → Option Float
  | .floatV x => some x
  | _ => none

def encBool : Option Bool → YamlVal
  | none => .nullV
  | some b => .boolV b

def decBool : YamlVal → Option Bool
  | .boolV b => some b
  | _ => none

def encDate : Option Date → YamlVal
  | none => .nullV
  | some d => .dateV d

def decDate : YamlVal → Option Date
  | .dateV d => some d
  | _ => none

def encListStr : Option (List String) → YamlVal
  | none => .nullV
  | some l => .listStrV l

def decListStr : YamlVal → Option (List String)
  | .listStrV l => some l
  | _ => none

def encListNat : Option (List Nat) → YamlVal
  | none => .nullV
  | some l => .listNatV l

def decListNat : YamlVal → Option (List Nat)
  | .listNatV l => some l
  | _ => none

/-- Modelled from the spec: serialize a `RawFrontmatter` to a YAML
mapping, one entry per field in declaration order, absent fields as
`null`. -/
def serFrontmatter (fm : RawFrontmatter) : List (String × YamlVal) :=
  [("title", encStr fm.title),
   ("version", encFloat fm.version),
   ("status", encStr fm.status),
   ("created", encDate fm.created),
   ("last_updated", encDate fm.last_updated),
   ("author", encStr fm.author),
   ("owner", encStr fm.owner),
   ("reviewers", encListStr fm.reviewers),
   ("next_review", encDate fm.next_review),
   ("tags", encListStr fm.tags),
   ("related_docs", encListStr fm.related_docs),
   ("supersedes", encStr fm.supersedes),
   ("superseded_by", encStr fm.superseded_by),
   ("doc_id", encNat fm.doc_id),
   ("decision_date", encDate fm.decision_date),
   ("implementation_pr", encNat fm.implementation_pr),
   ("related_issues", encListNat fm.related_issues),
   ("type", encStr fm.doc_type),
   ("may_become_design_doc", encBool fm.may_become_design_doc),
   ("archived_date", encDate fm.archived_date),
   ("archived_reason", encStr fm.archived_reason),
   ("historical_value", encStr fm.historical_value)]

/-- Look up a field of a YAML mapping and decode it; a missing key or a
`null`/ill-typed value gives the absent field value. -/
def getField (m : List (String × YamlVal)) (k : String)
    (dec : YamlVal → Option α) : Option α :=
  match m.lookup k with
  | some v => dec v
  | none => none

/-- Modelled from the spec: deserialize a `RawFrontmatter` from a YAML
mapping (permissive: every field optional, looked up by key). -/
def parseFrontmatterMap (m : List (String × YamlVal)) : RawFrontmatter :=
  { title := getField m "title" decStr
    version := getField m "version" decFloat
    status := getField m "status" decStr
    created := getField m "created" decDate
    last_updated := getField m "last_updated" decDate
    author := getField m "author" decStr
    owner := getField m "owner" decStr
    reviewers := getField m "reviewers" decListStr
    next_review := getField m "next_review" decDate
    tags := getField m "tags" decListStr
    related_docs := getField m "related_docs" decListStr
    supersedes := getField m "supersedes" decStr
    superseded_by := getField m "superseded_by" decStr
    doc_id := getField m "doc_id" decNat
    decision_date := getField m "decision_date" decDate
    implementation_pr := getField m "implementation_pr" decNat
    related_issues := getField m "related_issues" decListNat
    doc_type := getField m "type" decStr
    may_become_design_doc := getField m "may_become_design_doc" decBool
    archived_date := getField m "archived_date" decDate
    archived_reason := getField m "archived_reason" decStr
    historical_value := getField m "historical_value" decStr }

/-! ## Spec-side definitions and concrete inputs used by the claim theorems -/

/-- The claim's description of link resolution, step by step: (a) exact
or suffix/prefix containment against the known root-relative paths; (b)
existence of the link joined onto the scan root; (c) a retry of (a) and
(b) with a leading `docs/` stripped. -/
def resolves_spec (fs : String → Bool) (root : String) (known : List String)
    (link : String) : Bool :=
  (known.any fun p => p == link || strEndsWith p link || strEndsWith link p) ||
  fs (joinPath root link) ||
  (match stripDocs? link with
   | some stripped =>
     (known.any fun p => p == stripped || strEndsWith p stripped || strEndsWith stripped p) ||
     fs (joinPath root stripped)
   | none => false)

/-- Split a character list on `'/'` (the path-segment decomposition the
spec's classifier description speaks about). -/
def splitSlash : List Char → List (List Char)
  | [] => [[]]
  | c :: rest =>
    if c = '/' then [] :: splitSlash rest
    else
      match splitSlash rest with
      | [] => [[c]]
      | s :: ss => (c :: s) :: ss

/-- The segments of a path, separators normalized. -/
def pathSegments (p : String) : List String :=
  (splitSlash (normSlash p).data).map String.mk

/-- The classifier the claim describes, phrased over path segments: the
first category in priority order whose name is a segment other than the
last of the normalized path; default Active. -/
def categoryFromSegments (p : String) : Category :=
  let segs := (pathSegments p).dropLast
  if "active" ∈ segs then .active
  else if "design" ∈ segs then .design
  else if "research" ∈ segs then .research
  else if "archive" ∈ segs then .archive
  else .active

/-- Concrete input for claim C1: a document with one unresolved link. -/
def c1doc : Document :=
  ⟨"/r/a.md", { fmDefault with related_docs := some ["x.md"] }, .active, ""⟩

def c1tree : DocTree := ⟨[c1doc], "/r"⟩

/-- Concrete input for claim C4: an active document with an overdue
review date. -/
def c4doc : Document :=
  ⟨"docs/active/g.md", { fmDefault with next_review := some ⟨2026, 1, 1⟩ },
    .active, "b"⟩

def c4tree : DocTree := ⟨[c4doc], "docs"⟩

/-- Concrete input for claim C5: a document last updated 2025-09-15
(259 days before 2026-06-01, exactly 180 before 2026-03-14). -/
def c5docFar : Document :=
  ⟨"docs/active/cli.md",
   { fmDefault with last_updated := some ⟨2025, 9, 15⟩
                    next_review := some ⟨2027, 1, 1⟩ },
   .active, "b"⟩

/-- Concrete input for claim C6: the spec's scenario of an accepted
design document with a 2025-10-01 decision date and no PR. -/
def c6doc : Document :=
  ⟨"docs/design/002-context-fidelity.md",
   { fmDefault with status := some "accepted"
                    decision_date := some ⟨2025, 10, 1⟩ },
   .design, "b"⟩

def c6tree : DocTree := ⟨[c6doc], "docs"⟩

/-- Concrete input for claim C7: the spec's scenario of a dangling
`related_docs` entry. -/
def c7doc : Document :=
  ⟨"/tmp/test/active/x.md",
   { fmDefault with related_docs := some ["nonexistent/foo.md"] },
   .active, ""⟩

def c7tree : DocTree := ⟨[c7doc], "/tmp/test"⟩

/-! ## Theorems settling the claims -/

theorem strStartsWith_append_left (a s p : String) (h : p.data.length ≤ a.data.length) :
    strStartsWith (a ++ s) p = strStartsWith a p := by
  unfold strStartsWith
  rw [String.data_append, decide_eq_decide]
  constructor
  · intro h1
    rw [List.prefix_iff_eq_take] at h1 ⊢
    rwa [List.take_append_of_le_length h] at h1
  · intro h1
    exact h1.trans (List.prefix_append _ _)

theorem strStartsWith_append_of_true (a s p : String) (hp : strStartsWith a p = true) :
    strStartsWith (a ++ s) p = true := by
  rw [strStartsWith_append_left a s p (of_decide_eq_true hp).length_le]
  exact hp

theorem mem_staleDocIssues (today : Date) (doc : Document) (i : CheckIssue) :
    i ∈ staleDocIssues today doc ↔
      (∃ nr, doc.frontmatter.next_review = some nr ∧ dateLt nr today ∧
        i = ⟨doc.path, .stale, .warning, "Review overdue since " ++ nr.toStr⟩) ∨
      (∃ lu, doc.frontmatter.last_updated = some lu ∧ numDays today lu > 180 ∧
        i = ⟨doc.path, .stale, .warning,
          "Not updated in over 6 months (last: " ++ lu.toStr ++ ")"⟩) ∨
      (doc.category = .active ∧ doc.frontmatter.next_review = none ∧
        i = ⟨doc.path, .stale, .info, "No review date set"⟩) := by
  unfold staleDocIssues
  cases hnr : doc.frontmatter.next_review <;> cases hlu : doc.frontmatter.last_updated <;>
    simp [hnr, hlu, List.mem_append]

theorem overdueMsg_startsWith (d : Date) :
    strStartsWith ("Review overdue since " ++ d.toStr) "Review overdue" = true :=
  strStartsWith_append_of_true _ _ _ (by decide)

theorem notUpdatedMsg_not_overdue (d : Date) :
    strStartsWith ("Not updated in over 6 months (last: " ++ d.toStr ++ ")")
      "Review overdue" = false := by
  rw [String.append_assoc, strStartsWith_append_left _ _ _ (by decide)]
  decide

theorem notUpdatedMsg_startsWith (d : Date) :
    strStartsWith ("Not updated in over 6 months (last: " ++ d.toStr ++ ")")
      "Not updated" = true := by
  rw [String.append_assoc]
  exact strStartsWith_append_of_true _ _ _ (by decide)

theorem overdueMsg_not_notUpdated (d : Date) :
    strStartsWith ("Review overdue since " ++ d.toStr) "Not updated" = false := by
  rw [strStartsWith_append_left _ _ _ (by decide)]
  decide

theorem infoMsg_not_notUpdated :
    strStartsWith "No review date set" "Not updated" = false := by decide

theorem infoMsg_not_overdue :
    strStartsWith "No review date set" "Review overdue" = false := by decide

theorem overdueMsg_ne_info (d : Date) :
    ("Review overdue since " ++ d.toStr) ≠ "No review date set" := by
  intro he
  have h2 : ("Review overdue since " ++ d.toStr).data.head? = some 'R' := rfl
  rw [he] at h2
  exact absurd h2 (by decide)

theorem notUpdatedMsg_ne_info (d : Date) :
    ("Not updated in over 6 months (last: " ++ d.toStr ++ ")") ≠ "No review date set" := by
  intro he
  have h2 : ("Not updated in over 6 months (last: " ++ d.toStr ++ ")").data.take 3
      = ['N', 'o', 't'] := by
    rw [String.append_assoc]; rfl
  rw [he] at h2
  exact absurd h2 (by decide)

/-- No document can emit all three stale issues at once: the overdue
warning requires `next_review` present, the no-review-date info requires
it absent. -/
theorem stale_never_all_three (today : Date) (doc : Document) :
    ¬ (((staleDocIssues today doc).any fun i => strStartsWith i.message "Review overdue") = true ∧
       ((staleDocIssues today doc).any fun i => strStartsWith i.message "Not updated") = true ∧
       ((staleDocIssues today doc).any fun i => i.message == "No review date set") = true) := by
  rintro ⟨h1, -, h3⟩
  rw [List.any_eq_true] at h1 h3
  obtain ⟨i, hi, hp⟩ := h1
  obtain ⟨j, hj, hq⟩ := h3
  rw [mem_staleDocIssues] at hi hj
  rcases hj with ⟨nr, hnr, -, rfl⟩ | ⟨lu, hlu, -, rfl⟩ | ⟨-, hnone, rfl⟩
  · exact absurd (eq_of_beq hq) (overdueMsg_ne_info nr)
  · exact absurd (eq_of_beq hq) (notUpdatedMsg_ne_info lu)
  · rcases hi with ⟨nr, hnr, -, rfl⟩ | ⟨lu, hlu, -, rfl⟩ | ⟨-, -, rfl⟩
    · rw [hnone] at hnr; exact Option.noConfusion hnr
    · exact absurd hp (by simp [notUpdatedMsg_not_overdue])
    · exact absurd hp (by simp [infoMsg_not_overdue])

/-- C3 counterexample input: the three stale conditions cannot fire
together for any document (conditions 1 and 3 are mutually exclusive),
so the claim's existential is false. -/
theorem c3_all_three_impossible :
    (∃ (doc : Document) (today : Date),
      ((staleDocIssues today doc).any fun i => strStartsWith i.message "Review overdue") = true ∧
      ((staleDocIssues today doc).any fun i => strStartsWith i.message "Not updated") = true ∧
      ((staleDocIssues today doc).any fun i => i.message == "No review date set") = true)
    ↔ False := by
  rw [iff_false]
  rintro ⟨doc, today, h⟩
  exact stale_never_all_three today doc h

/-- C3 (amended): the three staleness conditions are evaluated
independently by `check_stale`, and a single document can emit the
overdue and not-updated warnings together, or the not-updated warning
and the no-review-date info together; but the overdue warning and the
no-review-date info are mutually exclusive, so no document ever emits
all three at once. -/
theorem c3_stale_conditions_pairs_not_all_three :
    (((staleDocIssues ⟨2026, 2, 12⟩
        ⟨"docs/active/a.md",
         { fmDefault with next_review := some ⟨2026, 1, 1⟩,
                          last_updated := some ⟨2025, 1, 1⟩ },
         .active, "b"⟩).map fun i => i.message) =
      ["Review overdue since " ++ Date.toStr ⟨2026, 1, 1⟩,
       "Not updated in over 6 months (last: " ++ Date.toStr ⟨2025, 1, 1⟩ ++ ")"]) ∧
    (((staleDocIssues ⟨2026, 2, 12⟩
        ⟨"docs/active/b.md",
         { fmDefault with last_updated := some ⟨2025, 1, 1⟩ },
         .active, "b"⟩).map fun i => i.message) =
      ["Not updated in over 6 months (last: " ++ Date.toStr ⟨2025, 1, 1⟩ ++ ")",
       "No review date set"]) ∧
    (∀ (doc : Document) (today : Date),
      ¬ (((staleDocIssues today doc).any fun i => strStartsWith i.message "Review overdue") = true ∧
         ((staleDocIssues today doc).any fun i => strStartsWith i.message "Not updated") = true ∧
         ((staleDocIssues today doc).any fun i => i.message == "No review date set") = true)) :=
  ⟨by decide, by decide, fun doc today => stale_never_all_three today doc⟩

/-- C4: a present `next_review` earlier than the reference date makes
`check_stale` emit the "Review overdue since" Warning for that document,
and a `next_review` at or after the reference date suppresses every
overdue message in that document's stale issues. -/
theorem c4_review_overdue_iff_past (tree : DocTree) (doc : Document) (today nr : Date)
    (hdoc : doc ∈ tree.docs) (hnr : doc.frontmatter.next_review = some nr) :
    (dateLt nr today →
      ∃ i ∈ check_stale tree today, i.path = doc.path ∧ i.severity = .warning ∧
        i.message = "Review overdue since " ++ nr.toStr) ∧
    (¬ dateLt nr today →
      ∀ i ∈ staleDocIssues today doc, strStartsWith i.message "Review overdue" = false) := by
  constructor
  · intro hlt
    refine ⟨⟨doc.path, .stale, .warning, "Review overdue since " ++ nr.toStr⟩, ?_, rfl, rfl, rfl⟩
    unfold check_stale DocTree.all
    rw [List.mem_flatMap]
    exact ⟨doc, hdoc, (mem_staleDocIssues today doc _).mpr (.inl ⟨nr, hnr, hlt, rfl⟩)⟩
  · intro hge i hi
    rw [mem_staleDocIssues] at hi
    rcases hi with ⟨nr', hnr', hlt, rfl⟩ | ⟨lu, hlu, hd, rfl⟩ | ⟨hcat, hnone, rfl⟩
    · rw [hnr] at hnr'
      cases Option.some.inj hnr'
      exact absurd hlt hge
    · exact notUpdatedMsg_not_overdue lu
    · rw [hnr] at hnone
      exact Option.noConfusion hnone

theorem c4_witness :
    dateLt ⟨2026, 1, 1⟩ ⟨2026, 2, 12⟩ ∧
    (∃ i ∈ check_stale c4tree ⟨2026, 2, 12⟩, i.path = c4doc.path ∧ i.severity = .warning ∧
      i.message = "Review overdue since " ++ Date.toStr ⟨2026, 1, 1⟩) :=
  ⟨by decide, (c4_review_overdue_iff_past c4tree c4doc ⟨2026, 2, 12⟩ ⟨2026, 1, 1⟩
    (List.mem_singleton_self _) rfl).1 (by decide)⟩

/-- C5: for a document with `last_updated` present, the per-document
stale issues contain exactly one "Not updated" message when the
reference date is more than 180 days past `last_updated` and none at
180 days or less; every such message is a Warning; and `check_stale` is
the concatenation of these per-document issue lists. -/
theorem c5_not_updated_exactly_one (today : Date) (doc : Document) (lu : Date)
    (hlu : doc.frontmatter.last_updated = some lu) :
    ((staleDocIssues today doc).countP fun i => strStartsWith i.message "Not updated")
      = (if numDays today lu > 180 then 1 else 0) ∧
    (∀ i ∈ staleDocIssues today doc, strStartsWith i.message "Not updated" = true →
      i.severity = .warning ∧ i.check_type = .stale) ∧
    check_stale = fun tree today => tree.all.flatMap (staleDocIssues today) := by
  refine ⟨?_, ?_, rfl⟩
  · cases hnr : doc.frontmatter.next_review <;>
      simp only [staleDocIssues, hnr, hlu, List.countP_append] <;>
      split <;>
      simp [List.countP_cons, overdueMsg_not_notUpdated, notUpdatedMsg_startsWith,
        infoMsg_not_notUpdated] <;>
      split <;> simp [List.countP_cons, infoMsg_not_notUpdated, notUpdatedMsg_startsWith]
  · intro i hi hmsg
    rw [mem_staleDocIssues] at hi
    rcases hi with ⟨nr, hnr, hlt, rfl⟩ | ⟨lu', hlu', hd, rfl⟩ | ⟨hcat, hnone, rfl⟩
    · exact ⟨rfl, rfl⟩
    · exact ⟨rfl, rfl⟩
    · exact absurd hmsg (by simp [infoMsg_not_notUpdated])

theorem c5_witness :
    numDays ⟨2026, 6, 1⟩ ⟨2025, 9, 15⟩ > 180 ∧
    ((staleDocIssues ⟨2026, 6, 1⟩ c5docFar).countP fun i =>
      strStartsWith i.message "Not updated") = 1 ∧
    ¬ numDays ⟨2026, 3, 14⟩ ⟨2025, 9, 15⟩ > 180 ∧
    ((staleDocIssues ⟨2026, 3, 14⟩ c5docFar).countP fun i =>
      strStartsWith i.message "Not updated") = 0 :=
  ⟨by decide,
   by
    have h := (c5_not_updated_exactly_one ⟨2026, 6, 1⟩ c5docFar ⟨2025, 9, 15⟩ (by decide)).1
    rwa [if_pos (by decide)] at h,
   by decide,
   by
    have h := (c5_not_updated_exactly_one ⟨2026, 3, 14⟩ c5docFar ⟨2025, 9, 15⟩ (by decide)).1
    rwa [if_neg (by decide)] at h⟩

/-- C8: a document with title, author, status, created and tags all
absent and a non-empty body gets exactly the single Error issue
"no frontmatter found" from the frontmatter validator. -/
theorem c8_no_frontmatter_single_error (doc : Document)
    (h1 : doc.frontmatter.title = none) (h2 : doc.frontmatter.author = none)
    (h3 : doc.frontmatter.status = none) (h4 : doc.frontmatter.created = none)
    (h5 : doc.frontmatter.tags = none) (h6 : doc.body ≠ "") :
    validate_frontmatter doc = [⟨doc.path, .error, "no frontmatter found"⟩] := by
  unfold validate_frontmatter
  rw [if_pos ⟨⟨h1, h2, h3, h4, h5⟩, h6⟩]

theorem c8_witness :
    (("# Heading\nSome text" : String) ≠ "") ∧
    validate_frontmatter ⟨"docs/bare.md", fmDefault, .active, "# Heading\nSome text"⟩
      = [⟨"docs/bare.md", .error, "no frontmatter found"⟩] :=
  ⟨by decide,
   c8_no_frontmatter_single_error ⟨"docs/bare.md", fmDefault, .active, "# Heading\nSome text"⟩
     rfl rfl rfl rfl rfl (by decide)⟩

/-- C6: for a Design document in the tree whose lower-cased status is
"accepted", a missing implementation PR yields the no-PR Warning, and a
decision date more than 90 days before the reference date additionally
yields the 90-days Warning; a lower-cased status of "proposed" yields no
orphan issue at all for that document. -/
theorem c6_orphan_accepted_vs_proposed (tree : DocTree) (today : Date) (doc : Document)
    (hdoc : doc ∈ tree.docs) (hcat : doc.category = .design) :
    (toLowerStr (doc.frontmatter.status.getD "") = "accepted" →
      (doc.frontmatter.implementation_pr = none →
        ∃ i ∈ check_orphans_with_date tree today, i.path = doc.path ∧
          i.severity = .warning ∧ i.message = "Accepted design doc has no implementation PR") ∧
      (∀ dd, doc.frontmatter.decision_date = some dd → numDays today dd > 90 →
        ∃ i ∈ check_orphans_with_date tree today, i.path = doc.path ∧
          i.severity = .warning ∧ i.message = "Accepted >90 days without implementation")) ∧
    (toLowerStr (doc.frontmatter.status.getD "") = "proposed" →
      orphanDocIssues tree today doc = []) := by
  have hmem : doc ∈ tree.by_category .design := by
    unfold DocTree.by_category
    rw [List.mem_filter]
    exact ⟨hdoc, by simp [hcat]⟩
  constructor
  · intro hst
    constructor
    · intro hpr
      refine ⟨⟨doc.path, .orphan, .warning, "Accepted design doc has no implementation PR"⟩,
        ?_, rfl, rfl, rfl⟩
      unfold check_orphans_with_date
      rw [List.mem_flatMap]
      refine ⟨doc, hmem, ?_⟩
      simp [orphanDocIssues, hst, hpr]
    · intro dd hdd hdays
      refine ⟨⟨doc.path, .orphan, .warning, "Accepted >90 days without implementation"⟩,
        ?_, rfl, rfl, rfl⟩
      unfold check_orphans_with_date
      rw [List.mem_flatMap]
      refine ⟨doc, hmem, ?_⟩
      simp [orphanDocIssues, hst, hdd, hdays]
  · intro hst
    simp [orphanDocIssues, hst]

theorem c6_witness :
    toLowerStr (c6doc.frontmatter.status.getD "") = "accepted" ∧
    c6doc.frontmatter.implementation_pr = none ∧
    c6doc.frontmatter.decision_date = some ⟨2025, 10, 1⟩ ∧
    numDays ⟨2026, 2, 12⟩ ⟨2025, 10, 1⟩ > 90 ∧
    (∃ i ∈ check_orphans_with_date c6tree ⟨2026, 2, 12⟩, i.path = c6doc.path ∧
      i.severity = .warning ∧ i.message = "Accepted design doc has no implementation PR") ∧
    (∃ i ∈ check_orphans_with_date c6tree ⟨2026, 2, 12⟩, i.path = c6doc.path ∧
      i.severity = .warning ∧ i.message = "Accepted >90 days without implementation") :=
  ⟨by decide, by decide, by decide, by decide,
   ((c6_orphan_accepted_vs_proposed c6tree ⟨2026, 2, 12⟩ c6doc
      (List.mem_singleton_self _) rfl).1 (by decide)).1 (by decide),
   ((c6_orphan_accepted_vs_proposed c6tree ⟨2026, 2, 12⟩ c6doc
      (List.mem_singleton_self _) rfl).1 (by decide)).2 ⟨2025, 10, 1⟩ (by decide) (by decide)⟩

/-! ## Broken-link claim support -/

theorem strDrop_suffix (s : String) (n : Nat) : (strDrop s n).data <:+ s.data :=
  ⟨s.data.take n, List.take_append_drop n s.data⟩

theorem stripDocs_suffix {link st : String} (h : stripDocs? link = some st) :
    st.data <:+ link.data := by
  unfold stripDocs? at h
  split at h
  · cases h
    exact strDrop_suffix link 5
  · exact Option.noConfusion h

theorem strEndsWith_of_suffix {st link p : String} (hsub : st.data <:+ link.data)
    (h : strEndsWith st p = true) : strEndsWith link p = true :=
  decide_eq_true ((of_decide_eq_true h).trans hsub)

/-- The spec's three resolution steps compute exactly the source's
`path_exists`: the only textual difference (the `docs/`-stripped retry in
the source omits the `link` ends-with known-path direction) is subsumed
by step (a) on the unstripped link, because the stripped link is a
suffix of the original. -/
theorem resolves_spec_eq_path_exists (fs : String → Bool) (root : String)
    (known : List String) (link : String) :
    resolves_spec fs root known link = path_exists fs root known link := by
  unfold resolves_spec path_exists
  cases hA : (known.any fun p => p == link || strEndsWith p link || strEndsWith link p) <;>
    cases hB : fs (joinPath root link)
  case true.true | true.false | false.true => simp
  case false.false =>
    simp only [Bool.false_or, Bool.false_eq_true, not_false_eq_true, if_neg, if_false]
    cases hS : stripDocs? link
    case none => rfl
    case some st =>
      have hall := List.any_eq_false.mp hA
      have hsfx := stripDocs_suffix hS
      have hany : (known.any fun p => p == st || strEndsWith p st || strEndsWith st p)
          = (known.any fun p => p == st || strEndsWith p st) := by
        refine Bool.eq_iff_iff.mpr ?_
        simp only [List.any_eq_true, Bool.or_eq_true]
        constructor
        · rintro ⟨p, hp, (hpq | hpq) | hpq⟩
          · exact ⟨p, hp, Or.inl hpq⟩
          · exact ⟨p, hp, Or.inr hpq⟩
          · exfalso
            have h3 := hall p hp
            simp only [Bool.or_eq_true, not_or] at h3
            exact h3.2 (strEndsWith_of_suffix hsfx hpq)
        · rintro ⟨p, hp, hpq | hpq⟩
          · exact ⟨p, hp, Or.inl (Or.inl hpq)⟩
          · exact ⟨p, hp, Or.inl (Or.inr hpq)⟩
      simp only [hany]
      cases hD : known.any fun p => p == st || strEndsWith p st <;>
        cases hC : fs (joinPath root st) <;> simp [hD, hC]

theorem brokenMsg_inj {a b : String}
    (h : "Broken link: " ++ a ++ " does not exist" = "Broken link: " ++ b ++ " does not exist") :
    a = b := by
  have hd := congrArg String.data h
  simp only [String.data_append] at hd
  exact String.ext (List.append_cancel_left (List.append_cancel_right hd))

theorem supMsg_ne_brokenMsg (a b : String) :
    ("Supersedes target not found: " ++ a) ≠ ("Broken link: " ++ b ++ " does not exist") := by
  intro he
  have h1 : ("Supersedes target not found: " ++ a).data.head? = some 'S' := rfl
  have h2 : ("Broken link: " ++ b ++ " does not exist").data.head? = some 'B' := rfl
  rw [he, h2] at h1
  exact absurd h1 (by decide)

theorem supByMsg_ne_brokenMsg (a b : String) :
    ("Superseded_by target not found: " ++ a) ≠ ("Broken link: " ++ b ++ " does not exist") := by
  intro he
  have h1 : ("Superseded_by target not found: " ++ a).data.head? = some 'S' := rfl
  have h2 : ("Broken link: " ++ b ++ " does not exist").data.head? = some 'B' := rfl
  rw [he, h2] at h1
  exact absurd h1 (by decide)

theorem supByMsg_ne_supMsg (a b : String) :
    ("Superseded_by target not found: " ++ a) ≠ ("Supersedes target not found: " ++ b) := by
  intro he
  have h1 : ("Superseded_by target not found: " ++ a).data.take 10
      = ['S', 'u', 'p', 'e', 'r', 's', 'e', 'd', 'e', 'd'] := rfl
  have h2 : ("Supersedes target not found: " ++ b).data.take 10
      = ['S', 'u', 'p', 'e', 'r', 's', 'e', 'd', 'e', 's'] := rfl
  rw [he, h2] at h1
  exact absurd h1 (by decide)

/-- Count of "Broken link" issues the related_docs loop produces for one
link value: one per occurrence when the link does not resolve, none when
it does. -/
theorem countP_broken_related (fs : String → Bool) (root : String) (known : List String)
    (path : String) (related : List String) (link : String) :
    ((related.flatMap fun l =>
        if ¬ path_exists fs root known l then
          [(⟨path, .brokenLink, .error, "Broken link: " ++ l ++ " does not exist"⟩ : CheckIssue)]
        else []).countP fun i =>
      i.message == "Broken link: " ++ link ++ " does not exist")
    = if path_exists fs root known link then 0 else related.count link := by
  induction related with
  | nil => simp
  | cons l ls ih =>
    rw [List.flatMap_cons, List.countP_append, ih]
    by_cases hll : l = link
    · subst hll
      cases hl : path_exists fs root known l <;>
        simp [hl, List.count_cons, List.countP_cons, Nat.add_comm]
    · have hmsg : (("Broken link: " ++ l ++ " does not exist" : String)
          == "Broken link: " ++ link ++ " does not exist") = false := by
        rw [beq_eq_false_iff_ne]
        intro he
        exact hll (brokenMsg_inj he)
      cases hl : path_exists fs root known l <;>
        cases hk : path_exists fs root known link <;>
        simp [hl, hk, List.count_cons, List.countP_cons, hmsg, hll,
          Ne.symm hll]

theorem mem_ite_singleton {α} {c : Prop} [Decidable c] {x i : α}
    (h : i ∈ if c then [x] else []) : i = x ∧ c := by
  by_cases hc : c
  · rw [if_pos hc] at h
    exact ⟨List.mem_singleton.mp h, hc⟩
  · rw [if_neg hc] at h
    exact absurd h (List.not_mem_nil i)

/-- C7: the spec's three resolution steps equal the source's
`path_exists`; every broken-link issue is an Error tagged BrokenLink at
the document's path; an unresolvable entry yields exactly one issue per
occurrence (for related_docs, supersedes and superseded_by alike), and a
resolvable one yields none. -/
theorem c7_broken_link_per_entry (fs : String → Bool) (tree : DocTree) (doc : Document)
    (link : String) :
    resolves_spec fs tree.root (known_paths tree) link
      = path_exists fs tree.root (known_paths tree) link ∧
    (∀ i ∈ brokenLinkDocIssues fs tree.root (known_paths tree) doc,
      i.severity = .error ∧ i.check_type = .brokenLink ∧ i.path = doc.path) ∧
    (path_exists fs tree.root (known_paths tree) link = false →
      ((brokenLinkDocIssues fs tree.root (known_paths tree) doc).countP fun i =>
        i.message == "Broken link: " ++ link ++ " does not exist")
      = (doc.frontmatter.related_docs.getD []).count link) ∧
    (path_exists fs tree.root (known_paths tree) link = true →
      ((brokenLinkDocIssues fs tree.root (known_paths tree) doc).countP fun i =>
        i.message == "Broken link: " ++ link ++ " does not exist") = 0) ∧
    (doc.frontmatter.supersedes = some link →
      ((brokenLinkDocIssues fs tree.root (known_paths tree) doc).countP fun i =>
        i.message == "Supersedes target not found: " ++ link)
      = if path_exists fs tree.root (known_paths tree) link then 0 else 1) ∧
    (doc.frontmatter.superseded_by = some link →
      ((brokenLinkDocIssues fs tree.root (known_paths tree) doc).countP fun i =>
        i.message == "Superseded_by target not found: " ++ link)
      = if path_exists fs tree.root (known_paths tree) link then 0 else 1) ∧
    check_broken_links = fun fs tree =>
      tree.all.flatMap (brokenLinkDocIssues fs tree.root (known_paths tree)) := by
  have hsegS : ∀ pred : CheckIssue → Bool,
      (∀ t, pred ⟨doc.path, .brokenLink, .error,
        "Supersedes target not found: " ++ t⟩ = false) →
      ((match doc.frontmatter.supersedes with
        | some target =>
          if ¬ path_exists fs tree.root (known_paths tree) target then
            [(⟨doc.path, .brokenLink, .error,
              "Supersedes target not found: " ++ target⟩ : CheckIssue)]
          else []
        | none => []).countP pred) = 0 := by
    intro pred hpred
    cases hsup : doc.frontmatter.supersedes
    · simp
    · rename_i t
      cases hpt : path_exists fs tree.root (known_paths tree) t <;>
        simp [hpt, List.countP_cons, hpred t]
  have hsegB : ∀ pred : CheckIssue → Bool,
      (∀ t, pred ⟨doc.path, .brokenLink, .error,
        "Superseded_by target not found: " ++ t⟩ = false) →
      ((match doc.frontmatter.superseded_by with
        | some target =>
          if ¬ path_exists fs tree.root (known_paths tree) target then
            [(⟨doc.path, .brokenLink, .error,
              "Superseded_by target not found: " ++ target⟩ : CheckIssue)]
          else []
        | none => []).countP pred) = 0 := by
    intro pred hpred
    cases hsby : doc.frontmatter.superseded_by
    · simp
    · rename_i t
      cases hpt : path_exists fs tree.root (known_paths tree) t <;>
        simp [hpt, List.countP_cons, hpred t]
  have hsegR0 : ∀ pred : CheckIssue → Bool,
      (∀ l, pred ⟨doc.path, .brokenLink, .error,
        "Broken link: " ++ l ++ " does not exist"⟩ = false) →
      (((doc.frontmatter.related_docs.getD []).flatMap fun l =>
        if ¬ path_exists fs tree.root (known_paths tree) l then
          [(⟨doc.path, .brokenLink, .error,
            "Broken link: " ++ l ++ " does not exist"⟩ : CheckIssue)]
        else []).countP pred) = 0 := by
    intro pred hpred
    rw [List.countP_eq_zero]
    intro i hi
    rw [List.mem_flatMap] at hi
    obtain ⟨l, -, hil⟩ := hi
    simp [(mem_ite_singleton hil).1, hpred l]
  refine ⟨resolves_spec_eq_path_exists fs tree.root (known_paths tree) link,
    ?_, ?_, ?_, ?_, ?_, rfl⟩
  · intro i hi
    unfold brokenLinkDocIssues at hi
    rw [List.mem_append, List.mem_append] at hi
    rcases hi with (hi | hi) | hi
    · rw [List.mem_flatMap] at hi
      obtain ⟨l, -, hil⟩ := hi
      cases (mem_ite_singleton hil).1
      exact ⟨rfl, rfl, rfl⟩
    · cases hsup : doc.frontmatter.supersedes
      · rw [hsup] at hi
        exact absurd hi (List.not_mem_nil i)
      · rw [hsup] at hi
        cases (mem_ite_singleton hi).1
        exact ⟨rfl, rfl, rfl⟩
    · cases hsby : doc.frontmatter.superseded_by
      · rw [hsby] at hi
        exact absurd hi (List.not_mem_nil i)
      · rw [hsby] at hi
        cases (mem_ite_singleton hi).1
        exact ⟨rfl, rfl, rfl⟩
  · intro hpe
    unfold brokenLinkDocIssues
    rw [List.countP_append, List.countP_append, countP_broken_related, hpe,
      hsegS (fun i : CheckIssue => i.message == "Broken link: " ++ link ++ " does not exist") (fun t => beq_false_of_ne (supMsg_ne_brokenMsg t link)),
      hsegB (fun i : CheckIssue => i.message == "Broken link: " ++ link ++ " does not exist") (fun t => beq_false_of_ne (supByMsg_ne_brokenMsg t link))]
    simp
  · intro hpe
    unfold brokenLinkDocIssues
    rw [List.countP_append, List.countP_append, countP_broken_related, hpe,
      hsegS (fun i : CheckIssue => i.message == "Broken link: " ++ link ++ " does not exist") (fun t => beq_false_of_ne (supMsg_ne_brokenMsg t link)),
      hsegB (fun i : CheckIssue => i.message == "Broken link: " ++ link ++ " does not exist") (fun t => beq_false_of_ne (supByMsg_ne_brokenMsg t link))]
    simp
  · intro hsup
    unfold brokenLinkDocIssues
    rw [List.countP_append, List.countP_append,
      hsegR0 (fun i : CheckIssue => i.message == "Supersedes target not found: " ++ link) (fun l => beq_false_of_ne (Ne.symm (supMsg_ne_brokenMsg link l))),
      hsegB (fun i : CheckIssue => i.message == "Supersedes target not found: " ++ link) (fun t => beq_false_of_ne (supByMsg_ne_supMsg t link))]
    cases hpe : path_exists fs tree.root (known_paths tree) link <;>
      simp [hsup, hpe, List.countP_cons]
  · intro hsby
    unfold brokenLinkDocIssues
    rw [List.countP_append, List.countP_append,
      hsegR0 (fun i : CheckIssue => i.message == "Superseded_by target not found: " ++ link) (fun l => beq_false_of_ne (Ne.symm (supByMsg_ne_brokenMsg link l))),
      hsegS (fun i : CheckIssue => i.message == "Superseded_by target not found: " ++ link) (fun t => beq_false_of_ne (Ne.symm (supByMsg_ne_supMsg link t)))]
    cases hpe : path_exists fs tree.root (known_paths tree) link <;>
      simp [hsby, hpe, List.countP_cons]

/-! ## Path segments (claim C2 support) -/

theorem splitSlash_ne_nil (l : List Char) : splitSlash l ≠ [] := by
  cases l with
  | nil => simp [splitSlash]
  | cons c rest =>
    by_cases hc : c = '/'
    · simp [splitSlash, hc]
    · simp only [splitSlash, hc, if_false]
      cases h : splitSlash rest <;> simp

/-- A nonslash word followed by `'/'` is a prefix of `t` exactly when it
is the first of at least two segments of `t`. -/
theorem prefix_slash_iff_first_seg (x : List Char) : ∀ (t : List Char), '/' ∉ x →
    ((x ++ ['/']) <+: t ↔ ∃ ss, splitSlash t = x :: ss ∧ ss ≠ []) := by
  induction x with
  | nil =>
    intro t _
    constructor
    · rintro ⟨r, hr⟩
      rw [List.nil_append] at hr
      subst hr
      exact ⟨splitSlash r, by simp [splitSlash], splitSlash_ne_nil r⟩
    · rintro ⟨ss, hss, hne⟩
      cases t with
      | nil =>
        simp [splitSlash] at hss
        exact absurd hss hne
      | cons b r =>
        by_cases hb : b = '/'
        · subst hb
          exact ⟨r, rfl⟩
        · simp only [splitSlash, hb, if_false] at hss
          cases h : splitSlash r <;> rw [h] at hss <;> simp at hss
  | cons x0 x' ih =>
    intro t hx
    have hx0 : x0 ≠ '/' := fun h => hx (by rw [h]; exact List.mem_cons_self _ _)
    have hx' : '/' ∉ x' := fun h => hx (List.mem_cons_of_mem _ h)
    constructor
    · intro hp
      cases t with
      | nil => simp at hp
      | cons b r =>
        rw [List.cons_append, List.cons_prefix_cons] at hp
        obtain ⟨rfl, hp'⟩ := hp
        obtain ⟨ss, hss, hne⟩ := (ih r hx').mp hp'
        refine ⟨ss, ?_, hne⟩
        simp only [splitSlash, hx0, if_false, hss]
    · rintro ⟨ss, hss, hne⟩
      cases t with
      | nil => simp [splitSlash] at hss
      | cons b r =>
        by_cases hb : b = '/'
        · simp [splitSlash, hb] at hss
        · simp only [splitSlash, hb, if_false] at hss
          cases h : splitSlash r with
          | nil =>
            rw [h] at hss
            simp at hss
            exact absurd hss.2 hne
          | cons s ss' =>
            rw [h, List.cons.injEq, List.cons.injEq] at hss
            obtain ⟨⟨hb0, hs⟩, hss'⟩ := hss
            rw [List.cons_append, List.cons_prefix_cons]
            exact ⟨hb0.symm, (ih r hx').mpr ⟨ss', by rw [h, hs], by rw [hss']; exact hne⟩⟩

theorem exists_first_seg_iff {c s : List Char} {ss : List (List Char)} :
    (∃ ss2, (s :: ss : List (List Char)) = c :: ss2 ∧ ss2 ≠ []) ↔ (c = s ∧ ss ≠ []) := by
  constructor
  · rintro ⟨ss2, he, hne⟩
    rw [List.cons.injEq] at he
    exact ⟨he.1.symm, he.2 ▸ hne⟩
  · rintro ⟨rfl, hne⟩
    exact ⟨ss, rfl, hne⟩

/-- A `/`-wrapped nonslash word occurs inside `t` exactly when it is an
interior segment of `t` (a segment other than the first, followed by a
further separator). -/
theorem infix_slash_iff_inner_seg (c : List Char) (hc : '/' ∉ c) : ∀ (t : List Char),
    (('/' :: c ++ ['/']) <:+: t ↔ c ∈ ((splitSlash t).tail).dropLast) := by
  intro t
  induction t with
  | nil => simp [splitSlash]
  | cons b r ih =>
    rw [List.infix_cons_iff]
    by_cases hb : b = '/'
    · subst hb
      rw [List.cons_append, List.cons_prefix_cons,
        prefix_slash_iff_first_seg c r hc]
      have ih2 := ih
      rw [List.cons_append] at ih2
      rw [ih2]
      simp only [splitSlash, if_pos rfl, List.tail_cons, eq_self_iff_true, true_and]
      cases h : splitSlash r with
      | nil => exact absurd h (splitSlash_ne_nil r)
      | cons s ss =>
        rw [exists_first_seg_iff]
        simp only [List.tail_cons]
        cases ss with
        | nil => simp
        | cons s1 ss1 => simp [List.dropLast]
    · have hpre : ¬ (('/' :: c ++ ['/']) <+: b :: r) := by
        rw [List.cons_append, List.cons_prefix_cons]
        rintro ⟨h1, -⟩
        exact hb h1.symm
      rw [or_iff_right hpre, ih]
      simp only [splitSlash, if_neg hb]
      cases h : splitSlash r with
      | nil => exact absurd h (splitSlash_ne_nil r)
      | cons s ss => simp

/-- Combined: the classifier's textual criterion (`/c/` occurs, or the
path starts with `c/`) holds exactly when `c` is a segment other than
the last. -/
theorem slash_criterion_iff_seg (c : List Char) (hc : '/' ∉ c) (_hne : c ≠ [])
    (l : List Char) :
    (('/' :: c ++ ['/']) <:+: l ∨ (c ++ ['/']) <+: l) ↔ c ∈ (splitSlash l).dropLast := by
  rw [infix_slash_iff_inner_seg c hc l, prefix_slash_iff_first_seg c l hc]
  cases h : splitSlash l with
  | nil => exact absurd h (splitSlash_ne_nil l)
  | cons s ss =>
    rw [exists_first_seg_iff]
    simp only [List.tail_cons]
    cases ss with
    | nil => simp
    | cons s1 ss1 => simp [List.dropLast, or_comm]

theorem criterion_iff_mem_segs (cname : String) (hc : '/' ∉ cname.data)
    (hne : cname.data ≠ []) (p : String) :
    ((strContains (normSlash p) ("/" ++ cname ++ "/")
      || strStartsWith (normSlash p) (cname ++ "/")) = true)
      ↔ cname ∈ (pathSegments p).dropLast := by
  unfold strContains strStartsWith pathSegments
  rw [Bool.or_eq_true, decide_eq_true_eq, decide_eq_true_eq]
  have hdata1 : ("/" ++ cname ++ "/" : String).data = '/' :: cname.data ++ ['/'] := by
    simp [String.data_append]
  have hdata2 : (cname ++ "/" : String).data = cname.data ++ ['/'] := by
    simp [String.data_append]
  rw [hdata1, hdata2, slash_criterion_iff_seg cname.data hc hne]
  rw [← List.map_dropLast, List.mem_map]
  constructor
  · intro hm
    exact ⟨cname.data, hm, rfl⟩
  · rintro ⟨x, hx, he⟩
    have hxe : x = cname.data := by
      have := congrArg String.data he
      exact this
    rwa [hxe] at hx

/-- C2 (amended): the classifier picks the first category in the fixed
priority order active, design, research, archive whose name occurs as a
path segment other than the last one of the separator-normalized path
(a final segment never matches, because the source requires a
separator after the name); no match gives Active; and the result is
unchanged under prepending a root `/`, making absolute and
root-relative forms consistent. -/
theorem c2_classifier_segments_and_consistency :
    (∀ p, infer_category p = categoryFromSegments p) ∧
    (∀ p, infer_category ("/" ++ p) = infer_category p) := by
  have h1 : ∀ p, infer_category p = categoryFromSegments p := by
    intro p
    unfold infer_category categoryFromSegments
    have ha := criterion_iff_mem_segs "active" (by decide) (by decide) p
    have hd := criterion_iff_mem_segs "design" (by decide) (by decide) p
    have hr := criterion_iff_mem_segs "research" (by decide) (by decide) p
    have hv := criterion_iff_mem_segs "archive" (by decide) (by decide) p
    rw [show ("/" ++ "active" ++ "/" : String) = "/active/" from rfl,
      show ("active" ++ "/" : String) = "active/" from rfl] at ha
    rw [show ("/" ++ "design" ++ "/" : String) = "/design/" from rfl,
      show ("design" ++ "/" : String) = "design/" from rfl] at hd
    rw [show ("/" ++ "research" ++ "/" : String) = "/research/" from rfl,
      show ("research" ++ "/" : String) = "research/" from rfl] at hr
    rw [show ("/" ++ "archive" ++ "/" : String) = "/archive/" from rfl,
      show ("archive" ++ "/" : String) = "archive/" from rfl] at hv
    simp only [ha, hd, hr, hv]
  refine ⟨h1, fun p => ?_⟩
  rw [h1, h1]
  unfold categoryFromSegments pathSegments
  have hns : (normSlash ("/" ++ p)).data = '/' :: (normSlash p).data := by
    simp [normSlash, String.data_append]
  rw [hns]
  have hsplit : splitSlash ('/' :: (normSlash p).data)
      = [] :: splitSlash (normSlash p).data := by
    simp [splitSlash]
  rw [hsplit]
  cases h : splitSlash (normSlash p).data with
  | nil => exact absurd h (splitSlash_ne_nil _)
  | cons s ss =>
    simp [List.dropLast, (by decide : ("active" : String) ≠ ""),
      (by decide : ("design" : String) ≠ ""),
      (by decide : ("research" : String) ≠ ""),
      (by decide : ("archive" : String) ≠ "")]

/-- C2 counterexample input: the path "foo/design" has a segment
literally equal to "design", yet the classifier returns Active, because
a final segment is never followed by a separator. -/
theorem c2_final_segment_not_matched :
    "design" ∈ pathSegments "foo/design" ∧
    infer_category "foo/design" = Category.active ∧
    Category.active ≠ Category.design := by decide

/-- C1 (amended): the pipeline is a pure function of the collection, the
reference date, and the filesystem state the broken-link check consults;
two runs at the same (collection, date) agree exactly when the
broken-link check sees the same filesystem answers, every other check
being independent of the filesystem. -/
theorem c1_pipeline_deterministic_given_filesystem (tree : DocTree) (today : Date)
    (fs1 fs2 : String → Bool) :
    run_all_checks_with_date fs1 tree today = run_all_checks_with_date fs2 tree today ↔
      check_broken_links fs1 tree = check_broken_links fs2 tree := by
  unfold run_all_checks_with_date
  constructor
  · intro h
    rw [CheckReport.mk.injEq] at h
    exact List.append_cancel_left (List.append_cancel_right h.1)
  · intro h
    rw [h]

/-- C1 counterexample input: on the same collection and reference date,
two filesystem states give different reports, because the broken-link
check performs existence queries; the pipeline is not a function of
(collection, reference date) alone. -/
theorem c1_filesystem_dependence :
    (run_all_checks_with_date (fun _ => false) c1tree ⟨2026, 2, 12⟩
      = run_all_checks_with_date (fun _ => true) c1tree ⟨2026, 2, 12⟩) ↔ False := by
  rw [iff_false]
  decide

/-! ## C9: round-trip of the modelled YAML codec -/

theorem decStr_encStr (o : Option String) : decStr (encStr o) = o := by cases o <;> rfl
theorem decNat_encNat (o : Option Nat) : decNat (encNat o) = o := by cases o <;> rfl
theorem decFloat_encFloat (o : Option Float) : decFloat (encFloat o) = o := by cases o <;> rfl
theorem decBool_encBool (o : Option Bool) : decBool (encBool o) = o := by cases o <;> rfl
theorem decDate_encDate (o : Option Date) : decDate (encDate o) = o := by cases o <;> rfl
theorem decListStr_encListStr (o : Option (List String)) :
    decListStr (encListStr o) = o := by cases o <;> rfl
theorem decListNat_encListNat (o : Option (List Nat)) :
    decListNat (encListNat o) = o := by cases o <;> rfl

/-- C9: serializing a frontmatter record to the YAML mapping and parsing
it back recovers every field exactly, absent fields (null) staying
absent and present fields (including empty sequences) keeping their
values. -/
theorem c9_frontmatter_roundtrip (fm : RawFrontmatter) :
    parseFrontmatterMap (serFrontmatter fm) = fm := by
  rcases fm with ⟨f1, f2, f3, f4, f5, f6, f7, f8, f9, f10, f11,
    f12, f13, f14, f15, f16, f17, f18, f19, f20, f21, f22⟩
  simp [parseFrontmatterMap, serFrontmatter, getField, List.lookup,
    decStr_encStr, decNat_encNat, decFloat_encFloat, decBool_encBool,
    decDate_encDate, decListStr_encListStr, decListNat_encListNat]

/-! ## C10: unclosed frontmatter -/

/-- Soundness of the delimiter-search loop: whatever position it
returns satisfies the closing-delimiter condition. -/
theorem findClosingFuel_sound (s : List Char) : ∀ (fuel sf abs : Nat),
    findClosingFuel s sf fuel = some abs → IsClosingDelim s abs := by
  intro fuel
  induction fuel with
  | zero =>
    intro sf abs h
    exact Option.noConfusion h
  | succ fuel ih =>
    intro sf abs h
    unfold findClosingFuel at h
    by_cases hsf : sf < s.length
    · rw [if_pos hsf] at h
      cases hfd : findDashes s sf (s.length + 1) with
      | none =>
        simp only [hfd] at h
        exact Option.noConfusion h
      | some a =>
        simp only [hfd] at h
        by_cases hcd : IsClosingDelim s a
        · rw [if_pos hcd] at h
          cases Option.some.inj h
          exact hcd
        · rw [if_neg hcd] at h
          exact ih _ _ h
    · rw [if_neg hsf] at h
      exact Option.noConfusion h

/-- If no closing delimiter line exists, the search finds none. -/
theorem find_closing_delimiter_none (s : List Char) (h : ∀ j, ¬ IsClosingDelim s j) :
    find_closing_delimiter s = none := by
  cases hf : find_closing_delimiter s with
  | none => rfl
  | some j => exact absurd (findClosingFuel_sound s s.length 0 j hf) (h j)

/-- C10: input that opens with a `---` delimiter line but has no closing
delimiter line yields no frontmatter, and document parsing succeeds (for
any YAML deserializer) with all fields absent and the body equal to the
entire input, opening line included. -/
theorem c10_unclosed_frontmatter (yamlParse : String → Except String RawFrontmatter)
    (path content rest : String)
    (hopen : content = "---\n" ++ rest ∨ content = "---\r\n" ++ rest)
    (hnoclose : ∀ j, ¬ IsClosingDelim rest.data j) :
    extract_frontmatter content = none ∧
    parse_document yamlParse path content
      = .ok ⟨path, fmDefault, infer_category path, content⟩ := by
  have hext : extract_frontmatter content = none := by
    unfold extract_frontmatter
    rcases hopen with rfl | rfl
    · have h1 : strStartsWith ("---\n" ++ rest) "---\n" = true :=
        strStartsWith_append_of_true _ _ _ (by decide)
      have h2 : strDrop ("---\n" ++ rest) 4 = rest := by
        unfold strDrop
        rw [String.data_append]
        have hl : ("---\n" : String).data.length = 4 := rfl
        rw [← hl, List.drop_left]
      simp only [h1, if_true, h2, find_closing_delimiter_none rest.data hnoclose]
    · have h0 : strStartsWith ("---\r\n" ++ rest) "---\n" = false := by
        rw [strStartsWith_append_left _ _ _ (by decide)]
        decide
      have h1 : strStartsWith ("---\r\n" ++ rest) "---\r\n" = true :=
        strStartsWith_append_of_true _ _ _ (by decide)
      have h2 : strDrop ("---\r\n" ++ rest) 5 = rest := by
        unfold strDrop
        rw [String.data_append]
        have hl : ("---\r\n" : String).data.length = 5 := rfl
        rw [← hl, List.drop_left]
      simp only [h0, h1, if_true, Bool.false_eq_true, if_false, h2,
        find_closing_delimiter_none rest.data hnoclose]
  refine ⟨hext, ?_⟩
  unfold parse_document
  rw [hext]

theorem c10_witness :
    extract_frontmatter "---\nfoo" = none ∧
    parse_document (fun _ => Except.error "boom") "random/bare.md" "---\nfoo"
      = .ok ⟨"random/bare.md", fmDefault, Category.active, "---\nfoo"⟩ := by
  have hno : ∀ j, ¬ IsClosingDelim ("foo" : String).data j := by
    intro j h
    obtain ⟨h1, -, -⟩ := h
    unfold tripleAt at h1
    rcases j with _ | _ | _ | n
    · exact absurd h1 (by decide)
    · exact absurd h1 (by decide)
    · exact absurd h1 (by decide)
    · have hl : ("foo" : String).data.length = 3 := rfl
      rw [List.drop_eq_nil_of_le (by rw [hl]; omega)] at h1
      exact absurd h1 (by decide)
  have h := c10_unclosed_frontmatter (fun _ => Except.error "boom") "random/bare.md"
    "---\nfoo" "foo" (Or.inl rfl) hno
  exact ⟨h.1, h.2⟩

theorem c7_witness :
    path_exists (fun _ => false) c7tree.root (known_paths c7tree) "nonexistent/foo.md" = false ∧
    ((brokenLinkDocIssues (fun _ => false) c7tree.root (known_paths c7tree) c7doc).countP fun i =>
      i.message == "Broken link: " ++ "nonexistent/foo.md" ++ " does not exist") = 1 := by
  refine ⟨by decide, ?_⟩
  have h := ((c7_broken_link_per_entry (fun _ => false) c7tree c7doc
    "nonexistent/foo.md").2.2.1) (by decide)
  rw [h]
  decide
